import Mathlib

/-!
Verification development for the per-target task supervisor of
psshlib (src/psshlib/task.py).

The source file is shallowly embedded below: byte strings become
`List Nat` (one entry per byte value), the mutable `Task` object becomes
a structure passed explicitly, OS calls (read/write/kill) become
parameters carrying their outcome, and observable side effects
(reactor registration, writer calls, stream writes and flushes, signals)
become an explicit `Effect` trace returned next to the new state.
-/

namespace PsshTask

/-- Byte strings are lists of byte values. -/
abbrev Bytes := List Nat

/-- BUFFER_SIZE = 1 << 16 from the source. -/
def BUFFER_SIZE : Nat := 65536

/-- errno value of EINTR (imported by the source from the errno module). -/
def EINTR : Nat := 4

/-- signal.SIGKILL on the platforms the source targets. -/
def SIGKILL : Nat := 9

/-- True for the byte values that Python bytes.splitlines treats as line
terminators: LF (10) and CR (13); CRLF counts as a single terminator. -/
def isTermByte (b : Nat) : Bool := b == 10 || b == 13

/-- Prepend byte b to the content of the first segment of a
(content, terminator) segment list, used to build up splitlines results. -/
def consHead (b : Nat) : List (Bytes × Bytes) → List (Bytes × Bytes)
  | [] => [([b], [])]
  | (c, t) :: more => (b :: c, t) :: more

/-- Split a byte string at Python universal-newline boundaries, keeping each
segment with its terminator: the terminator of every segment is [13,10], [13]
or [10], except the last segment, whose terminator is [] exactly when the
string does not end with a terminator. bytes.splitlines of the string is the
list of contents, that is, the first components. -/
def segs : Bytes → List (Bytes × Bytes)
  | [] => []
  | [b] =>
    if b = 13 then [([], [13])]
    else if b = 10 then [([], [10])]
    else [([b], [])]
  | b :: b2 :: rest =>
    if b = 13 then
      if b2 = 10 then ([], [13, 10]) :: segs rest
      else ([], [13]) :: segs (b2 :: rest)
    else if b = 10 then ([], [10]) :: segs (b2 :: rest)
    else consHead b (segs (b2 :: rest))

/-- Prepend a terminator-free byte string to the first segment of a
(content, terminator) segment list; when the list is empty, a non-empty
fragment becomes a single unterminated segment. -/
def consFrag (r : Bytes) (l : List (Bytes × Bytes)) : List (Bytes × Bytes) :=
  match l with
  | [] => if r = [] then [] else [(r, [])]
  | (c, t) :: more => (r ++ c, t) :: more

/-- The trailing fragment of a byte string: the maximal suffix that contains
no line-terminator byte (what follows the last terminator). -/
def trailingFrag (s : Bytes) : Bytes :=
  (s.reverse.takeWhile (fun b => !isTermByte b)).reverse

/-- The terminated prefix of a byte string: everything up to and including
the last line-terminator byte. -/
def terminatedPrefix (s : Bytes) : Bytes :=
  (s.reverse.dropWhile (fun b => !isTermByte b)).reverse

/-- The loop at the end of print_annotated_lines flags only the final line,
and only when lines_are_unfinished was still set. -/
def tagLines (u : Bool) : List Bytes → List (Bytes × Bool)
  | [] => []
  | [l] => [(l, u)]
  | l :: l2 :: rest => (l, false) :: tagLines u (l2 :: rest)

/-- Lookup in the fd_to_buffer dictionary, with the same default as
self.fd_to_buffer.get((fd, atype), bytes()) in the source. -/
def dictGet (d : List ((Nat × String) × Bytes)) (k : Nat × String) : Bytes :=
  match d with
  | [] => []
  | (k0, v) :: rest => if k0 = k then v else dictGet rest k

/-- Assignment self.fd_to_buffer[(fd, atype)] = v in the source. -/
def dictSet (d : List ((Nat × String) × Bytes)) (k : Nat × String) (v : Bytes) :
    List ((Nat × String) × Bytes) :=
  match d with
  | [] => [(k, v)]
  | (k0, v0) :: rest => if k0 = k then (k, v) :: rest else (k0, v0) :: dictSet rest k v

/-- The UTF-8 byte sequence of one character. -/
def utf8Bytes (c : Char) : Bytes :=
  let n := c.toNat
  if n < 128 then [n]
  else if n < 2048 then [192 + n / 64, 128 + n % 64]
  else if n < 65536 then [224 + n / 4096, 128 + (n / 64) % 64, 128 + n % 64]
  else [240 + n / 262144, 128 + (n / 4096) % 64, 128 + (n / 64) % 64, 128 + n % 64]

/-- host.encode(DEFAULT_ENCODING) from the source, as a byte list. -/
def encodeStr (s : String) : Bytes := s.data.flatMap utf8Bytes

/-- Modelled from the spec: the color module is not under src. The palette
(section 1 treats formatting selection as out of scope) is modelled as a plain
passthrough; only the shape of the decorated text matters to the claims. -/
def color_B (s : String) : String := s

/-- Modelled from the spec: see color_B. -/
def color_b (s : String) : String := s

/-- Modelled from the spec: see color_B. -/
def color_c (s : String) : String := s

/-- Modelled from the spec: see color_B. -/
def color_g (s : String) : String := s

/-- Modelled from the spec: see color_B. -/
def color_r (s : String) : String := s

/-- Modelled from the spec: the color module is not under src. Scenario B of
the spec shows the unterminated-line decoration as a single backslash appended
to the line, so the mark is modelled as the byte string of one backslash. -/
def UNTERMINATED_LINE_MARK : Bytes := [92]

/-- Modelled from the spec: the stream marker of OUTPUT_FORMATS for each
annotation type; the err format carries the marker bytes of the arrow text
of an error line and every other type the marker of an output line
(OUTPUT_FORMATS.get(atype) or OUTPUT_FORMATS with the empty key). -/
def formatMarker (atype : String) : Bytes :=
  if atype = "err" then [61, 62] else [45, 62]

/-- The format string of OUTPUT_FORMATS applied to a host and a line: the
host bytes, a space, the stream marker, a space, then the line. -/
def applyFormat (atype : String) (host line : Bytes) : Bytes :=
  host ++ [32] ++ formatMarker atype ++ [32] ++ line

/-- The options object consumed by Task.__init__ (read-only flags). -/
structure Opts where
  user : String
  verbose : Bool
  print_out : Bool
  inline : Bool
  no_annotate_lines : Bool
  no_buffer_lines : Bool
  inline_stdout : Bool

/-- The mutable state of a Task object: every field of the source object the
claims depend on. File objects are modelled by their descriptor numbers, so
an open slot is some fd and a closed (None) slot is none; the process handle
is modelled by its pid when held. -/
structure Task where
  host : String
  host_b : Bytes
  pretty_host : String
  port : String
  exitstatus : Option Int
  proc : Option Nat
  failures : List String
  killed : Bool
  inputbuffer : Bytes
  byteswritten : Nat
  outputbuffer : Bytes
  fd_to_buffer : List ((Nat × String) × Bytes)
  errorbuffer : Bytes
  stdin : Option Nat
  stdout : Option Nat
  stderr : Option Nat
  outfile : Option Nat
  errfile : Option Nat
  verbose : Bool
  print_out : Bool
  inline : Bool
  annotate_lines : Bool
  buffer_lines : Bool
  inline_stdout : Bool

/-- The two output sinks of a task: sys.stdout.buffer and sys.stderr.buffer. -/
inductive Sink where
  | outS
  | errS
  deriving DecidableEq, Repr

/-- Observable side effects of the embedded operations: reactor deregistration,
closing a descriptor, writer collaborator calls, writes and flushes on the
output sinks, a kill signal sent to a process group, and a write of n bytes
performed on the child stdin descriptor. -/
inductive Effect where
  | unregister (fd : Nat)
  | fdClose (fd : Nat)
  | writerWrite (handle : Nat) (data : Bytes)
  | writerClose (handle : Nat)
  | streamWrite (s : Sink) (data : Bytes)
  | streamFlush (s : Sink)
  | osKill (pgid : Int) (sig : Nat)
  | fdWrite (fd : Nat) (n : Nat)
  deriving DecidableEq, Repr

/-- Task.__init__: derives pretty_host from host, port and user, and stores
the option flags, with the source defaults annotate_lines = not
opts.no_annotate_lines and buffer_lines = not opts.no_buffer_lines. The
process handle and the three descriptor slots start out null. -/
def Task.init (host port user : String) (opts : Opts) (stdin : Bytes) : Task :=
  let pretty1 := if user ≠ opts.user then user ++ "@" ++ host else host
  let pretty2 := if port ≠ "" then pretty1 ++ ":" ++ port else pretty1
  { host := host
    host_b := encodeStr host
    pretty_host := pretty2
    port := port
    exitstatus := none
    proc := none
    failures := []
    killed := false
    inputbuffer := stdin
    byteswritten := 0
    outputbuffer := []
    fd_to_buffer := []
    errorbuffer := []
    stdin := none
    stdout := none
    stderr := none
    outfile := none
    errfile := none
    verbose := opts.verbose
    print_out := opts.print_out
    inline := opts.inline
    annotate_lines := !opts.no_annotate_lines
    buffer_lines := !opts.no_buffer_lines
    inline_stdout := opts.inline_stdout }

/-- Task._kill: signals the whole process group (os.kill of -pid with
SIGKILL) and sets killed, but only when a process handle is held; an OSError
raised by the kill is swallowed without undoing the state change, so the
outcome does not depend on whether the signal delivery failed. -/
def Task.kill_ (self : Task) : Task × List Effect :=
  match self.proc with
  | some pid => ({ self with killed := true }, [Effect.osKill (-(pid : Int)) SIGKILL])
  | none => (self, [])

/-- Task.timedout: when not yet killed, kill and append the timeout failure. -/
def Task.timedout (self : Task) : Task × List Effect :=
  if !self.killed then
    let k := self.kill_
    ({ k.1 with failures := k.1.failures ++ ["Timed out"] }, k.2)
  else (self, [])

/-- Task.interrupted: when not yet killed, kill and append the interrupt
failure. -/
def Task.interrupted (self : Task) : Task × List Effect :=
  if !self.killed then
    let k := self.kill_
    ({ k.1 with failures := k.1.failures ++ ["Interrupted"] }, k.2)
  else (self, [])

/-- Task.cancel: appends the cancelled failure, touching nothing else. -/
def Task.cancel (self : Task) : Task :=
  { self with failures := self.failures ++ ["Cancelled"] }

/-- The failure text Killed by signal %s with the negated exit status. -/
def killedBySignalMsg (code : Int) : String :=
  "Killed by signal " ++ toString (-code)

/-- The failure text Exited with error code %s with the exit status. -/
def exitedWithErrorMsg (code : Int) : String :=
  "Exited with error code " ++ toString code

/-- Task.running: true while any descriptor slot is open; once all are
closed, polls the process (the poll outcome is the pollResult parameter:
none while no exit code is available). On an available exit code the failure
list gains the signal-kill or error-exit entry for a non-zero code, the
process handle is dropped and the result is false. When no exit code is
available, a killed task reports the kill-signal convention and false;
otherwise the task is still running. With no process handle the source
falls through and returns None, which its callers treat as false. -/
def Task.running (self : Task) (pollResult : Option Int) : Bool × Task :=
  if self.stdin.isSome || self.stdout.isSome || self.stderr.isSome then
    (true, self)
  else
    match self.proc with
    | none => (false, self)
    | some _ =>
      let s1 := { self with exitstatus := pollResult }
      match pollResult with
      | none =>
        if s1.killed then (false, { s1 with exitstatus := some (-(SIGKILL : Int)) })
        else (true, s1)
      | some code =>
        if code < 0 then
          (false, { s1 with failures := s1.failures ++ [killedBySignalMsg code],
                            proc := none })
        else if code > 0 then
          (false, { s1 with failures := s1.failures ++ [exitedWithErrorMsg code],
                            proc := none })
        else
          (false, { s1 with proc := none })

/-- Task.close_stdin: unregister and close the input descriptor when the
slot is open, then null it; a no-op on a null slot. -/
def Task.close_stdin (self : Task) : Task × List Effect :=
  match self.stdin with
  | some fd => ({ self with stdin := none }, [Effect.unregister fd, Effect.fdClose fd])
  | none => (self, [])

/-- Task.close_stdout: like close_stdin for the output descriptor, also
closing the writer outfile when one is open. -/
def Task.close_stdout (self : Task) : Task × List Effect :=
  let c :=
    match self.stdout with
    | some fd => ({ self with stdout := none }, [Effect.unregister fd, Effect.fdClose fd])
    | none => (self, [])
  match c.1.outfile with
  | some h => ({ c.1 with outfile := none }, c.2 ++ [Effect.writerClose h])
  | none => c

/-- Task.close_stderr: like close_stdout for the error descriptor and the
writer errfile. -/
def Task.close_stderr (self : Task) : Task × List Effect :=
  let c :=
    match self.stderr with
    | some fd => ({ self with stderr := none }, [Effect.unregister fd, Effect.fdClose fd])
    | none => (self, [])
  match c.1.errfile with
  | some h => ({ c.1 with errfile := none }, c.2 ++ [Effect.writerClose h])
  | none => c

/-- Modelled from the spec: str(exc) of an OS error, whose exact text the
operating system supplies; the claims only need it to be one descriptive
entry determined by the error. -/
def strOfOSError (errno : Nat) : String :=
  "OSError errno " ++ toString errno

/-- Task.log_exception: appends one descriptive failure entry for the
caught exception; in verbose mode the source records the full traceback
text instead of the short message. -/
def Task.log_exception (self : Task) (errno : Nat) : Task :=
  let exc :=
    if self.verbose then ("Exception: " ++ strOfOSError errno)
    else strOfOSError errno
  { self with failures := self.failures ++ [exc] }

/-- The core of print_annotated_lines once the retained fragment has been
prepended: from the concatenated buffer it computes the lines to emit, each
tagged with the unfinished flag the loop would give it, and the fragment to
retain. lines_are_unfinished is buf and buf[-1:] != b'\n'; the fragment
lines[-1] is held back exactly when a descriptor key was given, the buffer is
unfinished, line buffering is on and completion is not forced. -/
def framerStep (fdPresent buffer_lines : Bool) (buf : Bytes) (force_finish : Bool) :
    List (Bytes × Bool) × Bytes :=
  let lines_are_unfinished : Bool := decide (buf ≠ [] ∧ buf.getLast? ≠ some 10)
  let lines := (segs buf).map Prod.fst
  if fdPresent = true ∧ lines_are_unfinished = true ∧ buffer_lines = true ∧
      force_finish = false then
    (tagLines false lines.dropLast, lines.getLastD [])
  else
    (tagLines lines_are_unfinished lines, [])

/-- One formatted output line: the OUTPUT_FORMATS annotation is applied only
when annotate_lines is set, and the unterminated mark is appended to a
flagged line afterwards, in both cases. -/
def renderLine (annotate : Bool) (host_b : Bytes) (atype : String)
    (lf : Bytes × Bool) : Bytes :=
  (if annotate then applyFormat atype host_b lf.1 else lf.1) ++
    (if lf.2 then UNTERMINATED_LINE_MARK else [])

/-- Task.print_annotated_lines: prepends the fragment retained for
(fd, atype), splits into lines, stores the new fragment back (the source
first resets the dictionary entry to empty bytes and then conditionally
assigns the fragment; the net effect is one assignment of the fragment, or
of empty bytes when nothing is retained), and when any line remains, writes
all rendered lines joined and terminated by newline bytes to the error sink
for the err type and the output sink otherwise, followed by a flush. -/
def Task.print_annotated_lines (self : Task) (buf0 : Bytes) (atype : String)
    (fd : Option Nat) (force_finish : Bool) : Task × List Effect :=
  let pre :=
    match fd with
    | some f => dictGet self.fd_to_buffer (f, atype)
    | none => []
  let buf := pre ++ buf0
  let step := framerStep fd.isSome self.buffer_lines buf force_finish
  let self2 :=
    match fd with
    | some f => { self with fd_to_buffer := dictSet self.fd_to_buffer (f, atype) step.2 }
    | none => self
  if step.1 = [] then (self2, [])
  else
    let outs := step.1.map (renderLine self.annotate_lines self.host_b atype)
    let out := List.intercalate [10] outs ++ [10]
    let sink := if atype = "err" then Sink.errS else Sink.outS
    (self2, [Effect.streamWrite sink out, Effect.streamFlush sink])

/-- Task.handle_stdin: fd is the descriptor the reactor reported ready and
writeResult the outcome of os.write of the chunk
inputbuffer[byteswritten : byteswritten + BUFFER_SIZE] on it (the write
happens only while byteswritten < len(inputbuffer); otherwise the slot is
closed). A short write advances byteswritten by the bytes actually written;
EINTR is retried silently; any other OS error closes the slot and logs one
failure. -/
def Task.handle_stdin (self : Task) (fd : Nat) (writeResult : Except Nat Nat) :
    Task × List Effect :=
  let start := self.byteswritten
  if start < self.inputbuffer.length then
    match writeResult with
    | Except.ok n => ({ self with byteswritten := start + n }, [Effect.fdWrite fd n])
    | Except.error errno =>
      if errno ≠ EINTR then
        let c := self.close_stdin
        (c.1.log_exception errno, c.2)
      else (self, [])
  else
    self.close_stdin

/-- Task.handle_stdout: readResult is the outcome of os.read of up to
BUFFER_SIZE bytes on fd. A non-empty read is accumulated into outputbuffer
when inline capture or inline stdout was requested, persisted through the
writer when an outfile is open, and framed for display when print_out is on
(the source guards the framing with a literal True whose else branch is dead
code). An empty read is end of stream: the framer is flushed with forced
completion when annotation is on, then the slot is closed. EINTR is retried
silently; any other OS error closes the slot and logs one failure. -/
def Task.handle_stdout (self : Task) (fd : Nat) (readResult : Except Nat Bytes) :
    Task × List Effect :=
  match readResult with
  | Except.ok buf =>
    if buf ≠ [] then
      let s1 :=
        if self.inline || self.inline_stdout then
          { self with outputbuffer := self.outputbuffer ++ buf }
        else self
      let e1 :=
        match s1.outfile with
        | some h => [Effect.writerWrite h buf]
        | none => []
      if s1.print_out then
        let p := s1.print_annotated_lines buf ("out") (some fd) false
        (p.1, e1 ++ p.2)
      else (s1, e1)
    else
      let p :=
        if self.annotate_lines then
          self.print_annotated_lines [] ("out") (some fd) true
        else (self, [])
      let c := p.1.close_stdout
      (c.1, p.2 ++ c.2)
  | Except.error errno =>
    if errno ≠ EINTR then
      let c := self.close_stdout
      (c.1.log_exception errno, c.2)
    else (self, [])

/-- Task.handle_stderr: symmetric to handle_stdout with the error
accumulator, the errfile and the err annotation type, except that framing of
non-empty data additionally requires annotate_lines, and that on a fatal OS
error the source closes the STDIN slot (close_stdin) rather than the stderr
slot, before logging one failure. The end-of-stream flush in the source
passes a str literal for the empty chunk where handle_stdout passes empty
bytes; it is modelled as the empty byte string here, its evident intent. -/
def Task.handle_stderr (self : Task) (fd : Nat) (readResult : Except Nat Bytes) :
    Task × List Effect :=
  match readResult with
  | Except.ok buf =>
    if buf ≠ [] then
      let s1 :=
        if self.inline then { self with errorbuffer := self.errorbuffer ++ buf }
        else self
      let e1 :=
        match s1.errfile with
        | some h => [Effect.writerWrite h buf]
        | none => []
      if s1.print_out && s1.annotate_lines then
        let p := s1.print_annotated_lines buf ("err") (some fd) false
        (p.1, e1 ++ p.2)
      else (s1, e1)
    else
      let p :=
        if self.annotate_lines then
          self.print_annotated_lines [] ("err") (some fd) true
        else (self, [])
      let c := p.1.close_stderr
      (c.1, p.2 ++ c.2)
  | Except.error errno =>
    if errno ≠ EINTR then
      let c := self.close_stdin
      (c.1.log_exception errno, c.2)
    else (self, [])

/-- The markers of the summary line of Task.report: the progress, success,
failure and stderr-section texts and the joined failure list, colored when
the output sink has colors and plain otherwise. -/
def reportParts (self : Task) (n : String) (hasColors : Bool) :
    String × String × String × String × String :=
  let error0 := String.intercalate (", ") self.failures
  if hasColors then
    (color_c ("[" ++ color_B n ++ "]"),
     color_g ("[" ++ color_B ("SUCCESS") ++ "]"),
     color_r ("[" ++ color_B ("FAILURE") ++ "]"),
     color_r ("Stderr: "),
     color_r (color_B error0))
  else
    ("[" ++ n ++ "]", "[SUCCESS]", "[FAILURE]", "Stderr: ", error0)

/-- The summary line of Task.report: progress marker, timestamp, failure
marker with the joined failure list on failure, success marker otherwise,
each separated by one space. -/
def reportMsg (self : Task) (n : String) (tstamp : String) (hasColors : Bool) :
    String :=
  let parts := reportParts self n hasColors
  if self.failures ≠ [] then
    String.intercalate (" ") [parts.1, tstamp, parts.2.2.1, self.pretty_host, parts.2.2.2.2]
  else
    String.intercalate (" ") [parts.1, tstamp, parts.2.1, self.pretty_host]

/-- Task.report: writes the summary line to the error sink and flushes it,
then, when the captured output buffer is non-empty, flushes the output sink,
writes the buffer and flushes again; then, when the captured error buffer is
non-empty, writes the stderr section marker, flushes, and writes the error
buffer, with no flush after this last write. n is the sequence index
rendered into the progress marker and tstamp the wall-clock time text; the
hasColors parameter is color.has_colors of the output sink. -/
def Task.report (self : Task) (n : String) (tstamp : String) (hasColors : Bool) :
    List Effect :=
  [Effect.streamWrite Sink.errS (encodeStr (reportMsg self n tstamp hasColors) ++ [10]),
   Effect.streamFlush Sink.errS] ++
    (if self.outputbuffer ≠ [] then
      [Effect.streamFlush Sink.outS, Effect.streamWrite Sink.outS self.outputbuffer,
       Effect.streamFlush Sink.outS]
    else []) ++
    (if self.errorbuffer ≠ [] then
      [Effect.streamWrite Sink.outS (encodeStr (reportParts self n hasColors).2.2.2.1),
       Effect.streamFlush Sink.outS, Effect.streamWrite Sink.outS self.errorbuffer]
    else [])

/-- True when every stream write in the effect trace is immediately followed
by a flush of the same sink. -/
def everyWriteFlushed : List Effect → Bool
  | [] => true
  | [Effect.streamWrite _ _] => false
  | Effect.streamWrite s _ :: e :: rest =>
    (e == Effect.streamFlush s) && everyWriteFlushed (e :: rest)
  | _ :: rest => everyWriteFlushed rest

/-- The framer call sequence of one (descriptor, kind) pair at the level of
tagged line contents: each data chunk is a reactor callback that prepends the
retained fragment (an unforced call with line buffering on), and end of
stream flushes with an empty chunk and forced completion, exactly as
handle_stdout and handle_stderr drive print_annotated_lines. -/
def runFramerGo : List Bytes → Bytes → List (Bytes × Bool)
  | [], retained => (framerStep true true retained true).1
  | c :: rest, retained =>
    let step := framerStep true true (retained ++ c) false
    step.1 ++ runFramerGo rest step.2

/-- Feed a whole chunk sequence to the framer, starting with no retained
fragment, ending with the forced end-of-stream flush. -/
def runFramer (chunks : List Bytes) : List (Bytes × Bool) :=
  runFramerGo chunks []

/-- The tag a line of the original stream should carry: its content together
with whether it is the trailing unterminated fragment (empty terminator). -/
def expectedTag (p : Bytes × Bytes) : Bytes × Bool :=
  (p.1, p.2.isEmpty)

/-- One full-transfer input-feeder callback: the os.write outcome transfers
the whole offered chunk inputbuffer[byteswritten : byteswritten +
BUFFER_SIZE], whose length is min BUFFER_SIZE (remaining bytes). -/
def fullWriteStep (self : Task) (fd : Nat) : Task × List Effect :=
  self.handle_stdin fd
    (Except.ok (min BUFFER_SIZE (self.inputbuffer.length - self.byteswritten)))

/-- A default options object for concrete scenario states. -/
def opts0 : Opts :=
  { user := "root", verbose := false, print_out := false, inline := false,
    no_annotate_lines := false, no_buffer_lines := false, inline_stdout := false }

/-- A freshly constructed task for concrete scenario states. -/
def task0 : Task := Task.init ("h") ("") ("root") opts0 []

/-- Scenario E of the spec: a task whose child was started with a
200000-byte stdin buffer, its input slot open on descriptor 3. -/
def taskE : Task :=
  { Task.init ("h") ("") ("root") opts0 (List.replicate 200000 0) with stdin := some 3 }

/-- Iterated full-transfer feeder callbacks on descriptor 3 of taskE. -/
def feedE : Nat → Task
  | 0 => taskE
  | n + 1 => (fullWriteStep (feedE n) 3).1

/-- A task with all three descriptor slots open, as after start. -/
def taskOpen : Task :=
  { task0 with stdin := some 3, stdout := some 4, stderr := some 5 }

/-- Options with annotation and line buffering both disabled. -/
def optsRaw : Opts :=
  { opts0 with no_annotate_lines := true, no_buffer_lines := true }

/-- A task constructed with annotation and line buffering disabled. -/
def taskRaw : Task := Task.init ("h") ("") ("root") optsRaw []

/-- Options with only annotation disabled (buffering still on). -/
def optsNoAnn : Opts := { opts0 with no_annotate_lines := true }

/-- A task constructed with annotation disabled and buffering enabled. -/
def taskNoAnn : Task := Task.init ("h") ("") ("root") optsNoAnn []

/-- A completed task carrying both captured buffers, for the reporter. -/
def taskBuffers : Task :=
  { task0 with outputbuffer := [66], errorbuffer := [65] }

/-- A not-yet-killed task holding a live process handle. -/
def taskProc : Task := { task0 with proc := some 42 }

/-!
## Theorems

First the claim theorems that need little machinery (C1, C2, C3, C7, C8,
C9, C10), then the line-framer theory (segment splitting lemmas) and the
framer claims (C4, C5, C6).
-/

/-- C1: the claim says a fatal I/O error in handle_stderr closes the error
slot itself and leaves input and output untouched. The source contradicts
this (and its own symmetric handle_stdout error path): on a fatal error,
handle_stderr calls close_stdin, so the input slot is closed and
deregistered while stderr stays open and registered. This theorem evaluates
the embedded handler at the failing input: all three slots open, os.read
failing with errno 9 (EBADF, not EINTR); exactly one descriptive failure is
appended, but the slot that closes is stdin, not stderr. -/
theorem C1_handle_stderr_fatal_closes_stdin :
    taskOpen.stderr = some 5 ∧ taskOpen.stdin = some 3 ∧
    (taskOpen.handle_stderr 5 (Except.error 9)).1.stderr = some 5 ∧
    (taskOpen.handle_stderr 5 (Except.error 9)).1.stdin = none ∧
    (taskOpen.handle_stderr 5 (Except.error 9)).1.stdout = some 4 ∧
    (taskOpen.handle_stderr 5 (Except.error 9)).1.failures = [strOfOSError 9] ∧
    (taskOpen.handle_stderr 5 (Except.error 9)).2 =
      [Effect.unregister 3, Effect.fdClose 3] :=
  ⟨rfl, rfl, rfl, rfl, rfl, rfl, rfl⟩

/-- C2 counterexample: the claim quantifies over every task with killed
false and asserts that timedout sets killed to true and sends a kill signal.
On a task holding no process handle (proc is None), _kill does nothing at
all, so killed stays false and no signal is sent, although the failure entry
is still appended; task0 is such a task. -/
theorem C2_counterexample :
    task0.killed = false ∧
    (task0.timedout).1.killed = false ∧
    (task0.timedout).2 = [] ∧
    (task0.timedout).1.failures = ["Timed out"] :=
  ⟨rfl, rfl, rfl, rfl⟩

/-- C2 amended: on a task with killed false that holds a process handle,
timedout (interrupted) sends SIGKILL to the process group -pid, sets killed
and appends exactly the Timed out (Interrupted) failure string; on a task
already killed both are no-ops. Without a process handle, killed stays
false and no signal is sent (see the counterexample). -/
theorem C2_timedout_interrupted (s : Task) (pid : Nat)
    (hp : s.proc = some pid) (hk : s.killed = false) :
    s.timedout = ({ s with killed := true, failures := s.failures ++ ["Timed out"] },
        [Effect.osKill (-(pid : Int)) SIGKILL]) ∧
    s.interrupted = ({ s with killed := true, failures := s.failures ++ ["Interrupted"] },
        [Effect.osKill (-(pid : Int)) SIGKILL]) ∧
    (∀ s' : Task, s'.killed = true →
      s'.timedout = (s', []) ∧ s'.interrupted = (s', [])) := by
  refine ⟨?_, ?_, fun s' hk' => ⟨?_, ?_⟩⟩
  · simp [Task.timedout, Task.kill_, hp, hk]
  · simp [Task.interrupted, Task.kill_, hp, hk]
  · simp [Task.timedout, hk']
  · simp [Task.interrupted, hk']

/-- C2 witness: the amended theorem applied to a concrete live task. -/
theorem C2_witness :
    taskProc.proc = some 42 ∧ taskProc.killed = false ∧
    taskProc.timedout =
      ({ taskProc with killed := true, failures := taskProc.failures ++ ["Timed out"] },
        [Effect.osKill (-((42 : Nat) : Int)) SIGKILL]) :=
  ⟨rfl, rfl, (C2_timedout_interrupted taskProc 42 rfl rfl).1⟩

/-- C3: once all three slots are closed and the poll yields an exit code,
running appends exactly one signal-kill entry for a negative code, exactly
one error-exit entry for a positive code and nothing for zero, releases the
process handle and returns false. -/
theorem C3_running_exit (s : Task) (pid : Nat) (code : Int)
    (h1 : s.stdin = none) (h2 : s.stdout = none) (h3 : s.stderr = none)
    (hp : s.proc = some pid) :
    (s.running (some code)).1 = false ∧
    (s.running (some code)).2.proc = none ∧
    (code < 0 →
      (s.running (some code)).2.failures = s.failures ++ [killedBySignalMsg code]) ∧
    (0 < code →
      (s.running (some code)).2.failures = s.failures ++ [exitedWithErrorMsg code]) ∧
    (code = 0 → (s.running (some code)).2.failures = s.failures) := by
  have hb : (s.stdin.isSome || s.stdout.isSome || s.stderr.isSome) = false := by
    rw [h1, h2, h3]; rfl
  refine ⟨?_, ?_, fun hc => ?_, fun hc => ?_, fun hc => ?_⟩
  · rcases lt_trichotomy code 0 with hc | hc | hc
    · simp [Task.running, hb, hp, hc]
    · subst hc; simp [Task.running, hb, hp]
    · have hc' : ¬ code < 0 := by omega
      simp [Task.running, hb, hp, hc, hc']
  · rcases lt_trichotomy code 0 with hc | hc | hc
    · simp [Task.running, hb, hp, hc]
    · subst hc; simp [Task.running, hb, hp]
    · have hc' : ¬ code < 0 := by omega
      simp [Task.running, hb, hp, hc, hc']
  · simp [Task.running, hb, hp, hc]
  · have hc' : ¬ code < 0 := by omega
    simp [Task.running, hb, hp, hc, hc']
  · subst hc; simp [Task.running, hb, hp]

/-- C3 witness: the theorem applied to a concrete task and exit code. -/
theorem C3_witness :
    taskProc.stdin = none ∧ taskProc.proc = some 42 ∧
    (taskProc.running (some (-15))).1 = false ∧
    (taskProc.running (some (-15))).2.proc = none ∧
    (taskProc.running (some (-15))).2.failures = taskProc.failures ++ [killedBySignalMsg (-15)] := by
  have h := C3_running_exit taskProc 42 (-15) rfl rfl rfl rfl
  exact ⟨rfl, rfl, h.1, h.2.1, h.2.2.1 (by decide)⟩

/-- C7 counterexample: the claim asserts that every write to a sink is
explicitly flushed immediately after that write, but the final write of the
captured error buffer in Task.report is not followed by any flush; on a
completed task with a non-empty captured error buffer, the report trace ends
in an unflushed write. -/
theorem C7_counterexample :
    taskBuffers.errorbuffer ≠ [] ∧
    everyWriteFlushed (taskBuffers.report ("1") ("00:00:00") false) = false := by
  exact ⟨by decide, rfl⟩

/-- C7 amended: report emits, in this fixed order, the summary line on the
error sink (flushed), then the captured output buffer when non-empty
(flushed, with a preceding flush of the sink), then, only when a captured
error exists, the error-section marker (flushed) followed by the captured
error buffer; every write is immediately flushed except the final
captured-error write, which no flush follows — so the whole trace satisfies
the every-write-flushed discipline exactly when the captured error buffer is
empty. -/
theorem C7_report_order (s : Task) (n tstamp : String) (hasColors : Bool) :
    s.report n tstamp hasColors =
      [Effect.streamWrite Sink.errS (encodeStr (reportMsg s n tstamp hasColors) ++ [10]),
       Effect.streamFlush Sink.errS] ++
        (if s.outputbuffer ≠ [] then
          [Effect.streamFlush Sink.outS, Effect.streamWrite Sink.outS s.outputbuffer,
           Effect.streamFlush Sink.outS]
        else []) ++
        (if s.errorbuffer ≠ [] then
          [Effect.streamWrite Sink.outS (encodeStr (reportParts s n hasColors).2.2.2.1),
           Effect.streamFlush Sink.outS, Effect.streamWrite Sink.outS s.errorbuffer]
        else []) ∧
    everyWriteFlushed (s.report n tstamp hasColors) = s.errorbuffer.isEmpty := by
  refine ⟨rfl, ?_⟩
  by_cases he : s.errorbuffer = []
  · by_cases ho : s.outputbuffer = [] <;>
      simp [Task.report, he, ho, everyWriteFlushed]
  · by_cases ho : s.outputbuffer = [] <;>
      simp [Task.report, he, ho, everyWriteFlushed, List.isEmpty_iff]

/-- C8: Scenario E on the embedded feeder. Starting from a task with a
200000-byte stdin buffer and the 65536-byte transfer chunk, with every
os.write transferring the full offered chunk, the first four callbacks each
perform one write (of 65536, 65536, 65536 and 3392 bytes), the running
offset climbs strictly through 65536, 131072, 196608 and 200000, the input
slot is still open after the fourth callback, and the fifth callback
performs no write but closes and deregisters the slot with the offset equal
to the buffer length 200000. -/
theorem C8_feeder_scenario :
    taskE.byteswritten = 0 ∧ taskE.inputbuffer.length = 200000 ∧
    (fullWriteStep taskE 3).2 = [Effect.fdWrite 3 65536] ∧
    (feedE 1).byteswritten = 65536 ∧
    (fullWriteStep (feedE 1) 3).2 = [Effect.fdWrite 3 65536] ∧
    (feedE 2).byteswritten = 131072 ∧
    (fullWriteStep (feedE 2) 3).2 = [Effect.fdWrite 3 65536] ∧
    (feedE 3).byteswritten = 196608 ∧
    (fullWriteStep (feedE 3) 3).2 = [Effect.fdWrite 3 3392] ∧
    (feedE 4).byteswritten = 200000 ∧
    (feedE 4).stdin = some 3 ∧
    (fullWriteStep (feedE 4) 3).2 = [Effect.unregister 3, Effect.fdClose 3] ∧
    (feedE 5).stdin = none ∧
    (feedE 5).byteswritten = 200000 ∧
    (0 < 65536 ∧ 65536 < 131072 ∧ 131072 < 196608 ∧ 196608 < 200000) := by
  have hstep : ∀ s : Task, ∀ fd L : Nat, s.inputbuffer.length = L →
      s.byteswritten < L →
      fullWriteStep s fd =
        ({ s with byteswritten :=
            s.byteswritten + min BUFFER_SIZE (L - s.byteswritten) },
          [Effect.fdWrite fd (min BUFFER_SIZE (L - s.byteswritten))]) := by
    intro s fd L hL h
    subst hL
    simp [fullWriteStep, Task.handle_stdin, h]
  have hrep : taskE.inputbuffer = List.replicate 200000 0 := rfl
  have hlen : taskE.inputbuffer.length = 200000 := by
    rw [hrep, List.length_replicate]
  have hbw0 : taskE.byteswritten = 0 := rfl
  have s1 : fullWriteStep taskE 3 =
      ({ taskE with byteswritten := 65536 }, [Effect.fdWrite 3 65536]) := by
    rw [hstep taskE 3 200000 hlen (by rw [hbw0]; decide), hbw0]
    norm_num [BUFFER_SIZE, Nat.min_def]
  have un : ∀ n : Nat, feedE (n + 1) = (fullWriteStep (feedE n) 3).1 := fun _ => rfl
  have u0 : feedE 0 = taskE := rfl
  have f1 : feedE 1 = { taskE with byteswritten := 65536 } := by
    rw [un 0, u0, s1]
  have s2 : fullWriteStep ({ taskE with byteswritten := 65536 }) 3 =
      ({ taskE with byteswritten := 131072 }, [Effect.fdWrite 3 65536]) := by
    rw [hstep _ 3 200000
      (show ({ taskE with byteswritten := 65536 } : Task).inputbuffer.length = 200000 from hlen)
      (by decide)]
    norm_num [BUFFER_SIZE, Nat.min_def]
  have f2 : feedE 2 = { taskE with byteswritten := 131072 } := by
    rw [un 1, f1, s2]
  have s3 : fullWriteStep ({ taskE with byteswritten := 131072 }) 3 =
      ({ taskE with byteswritten := 196608 }, [Effect.fdWrite 3 65536]) := by
    rw [hstep _ 3 200000
      (show ({ taskE with byteswritten := 131072 } : Task).inputbuffer.length = 200000 from hlen)
      (by decide)]
    norm_num [BUFFER_SIZE, Nat.min_def]
  have f3 : feedE 3 = { taskE with byteswritten := 196608 } := by
    rw [un 2, f2, s3]
  have s4 : fullWriteStep ({ taskE with byteswritten := 196608 }) 3 =
      ({ taskE with byteswritten := 200000 }, [Effect.fdWrite 3 3392]) := by
    rw [hstep _ 3 200000
      (show ({ taskE with byteswritten := 196608 } : Task).inputbuffer.length = 200000 from hlen)
      (by decide)]
    norm_num [BUFFER_SIZE, Nat.min_def]
  have f4 : feedE 4 = { taskE with byteswritten := 200000 } := by
    rw [un 3, f3, s4]
  have hclose : ∀ s : Task, ∀ fd L : Nat, s.inputbuffer.length = L →
      ¬ s.byteswritten < L → fullWriteStep s fd = s.close_stdin := by
    intro s fd L hL h
    subst hL
    simp [fullWriteStep, Task.handle_stdin, h]
  have s5 : fullWriteStep ({ taskE with byteswritten := 200000 }) 3 =
      ({ taskE with byteswritten := 200000, stdin := none },
        [Effect.unregister 3, Effect.fdClose 3]) := by
    rw [hclose _ 3 200000
      (show ({ taskE with byteswritten := 200000 } : Task).inputbuffer.length = 200000 from hlen)
      (by decide)]
    rfl
  have f5 : feedE 5 = { taskE with byteswritten := 200000, stdin := none } := by
    rw [un 4, f4, s5]
  refine ⟨hbw0, hlen, ?_, ?_, ?_, ?_, ?_, ?_, ?_, ?_, ?_, ?_, ?_, ?_, by decide⟩
  · rw [s1]
  · rw [f1]
  · rw [f1, s2]
  · rw [f2]
  · rw [f2, s3]
  · rw [f3]
  · rw [f3, s4]
  · rw [f4]
  · exact (congrArg Task.stdin f4).trans rfl
  · rw [f4, s5]
  · exact (congrArg Task.stdin f5).trans rfl
  · exact (congrArg Task.byteswritten f5).trans rfl

/-- C9 counterexample: the claim says a stream handler invoked after its
slot is already null is a no-op that appends no failure entry. On task0 the
output slot is null, yet handle_stdout still performs its os.read on the
stale descriptor; when that read fails fatally (errno 9, EBADF, the usual
outcome on a closed descriptor), the handler appends a failure entry. -/
theorem C9_counterexample :
    task0.stdout = none ∧ task0.failures = [] ∧
    (task0.handle_stdout 4 (Except.error 9)).1.failures = [strOfOSError 9] :=
  ⟨rfl, rfl, rfl⟩

/-- C9 amended: the close helpers are idempotent, so a stale invocation
performs no slot transition, and it is a true no-op whenever its OS call
reports a recoverable interruption (EINTR) or, for the input-feeder, when
the byte offset has reached the end of the input buffer; but a handler
invoked on a null slot still performs its OS call, and a fatal error from
that call appends a failure entry (see the counterexample). -/
theorem C9_stale_handlers (s : Task) (fd : Nat) (wr : Except Nat Nat) :
    (s.stdin = none → s.close_stdin = (s, [])) ∧
    (s.stdout = none → s.outfile = none → s.close_stdout = (s, [])) ∧
    (s.stderr = none → s.errfile = none → s.close_stderr = (s, [])) ∧
    (s.byteswritten < s.inputbuffer.length →
      s.handle_stdin fd (Except.error EINTR) = (s, [])) ∧
    (s.handle_stdout fd (Except.error EINTR) = (s, [])) ∧
    (s.handle_stderr fd (Except.error EINTR) = (s, [])) ∧
    (s.stdin = none → ¬ s.byteswritten < s.inputbuffer.length →
      s.handle_stdin fd wr = (s, [])) := by
  refine ⟨fun h1 => ?_, fun h2 h2' => ?_, fun h3 h3' => ?_, fun h4 => ?_, ?_, ?_,
    fun h1 h5 => ?_⟩
  · simp [Task.close_stdin, h1]
  · simp [Task.close_stdout, h2, h2']
  · simp [Task.close_stderr, h3, h3']
  · simp [Task.handle_stdin, h4]
  · simp [Task.handle_stdout]
  · simp [Task.handle_stderr]
  · simp [Task.handle_stdin, h5, Task.close_stdin, h1]

/-- C9 witness: the amended theorem applied to task0, whose slots are all
null, with a stale EINTR read and a stale feeder call at a consumed offset. -/
theorem C9_witness :
    task0.close_stdin = (task0, []) ∧
    task0.handle_stdout 4 (Except.error EINTR) = (task0, []) ∧
    task0.handle_stdin 3 (Except.ok 5) = (task0, []) := by
  have h := C9_stale_handlers task0 3 (Except.ok 5)
  exact ⟨h.1 rfl, (C9_stale_handlers task0 4 (Except.ok 5)).2.2.2.2.1,
    h.2.2.2.2.2.2 rfl (by decide)⟩

/-- The kill helper leaves the derived display name unchanged. -/
theorem pretty_host_kill (s : Task) : s.kill_.1.pretty_host = s.pretty_host := by
  unfold Task.kill_
  cases s.proc <;> rfl

/-- timedout leaves the derived display name unchanged. -/
theorem pretty_host_timedout (s : Task) :
    s.timedout.1.pretty_host = s.pretty_host := by
  unfold Task.timedout Task.kill_
  cases s.killed <;> cases s.proc <;> rfl

/-- interrupted leaves the derived display name unchanged. -/
theorem pretty_host_interrupted (s : Task) :
    s.interrupted.1.pretty_host = s.pretty_host := by
  unfold Task.interrupted Task.kill_
  cases s.killed <;> cases s.proc <;> rfl

/-- running leaves the derived display name unchanged. -/
theorem pretty_host_running (s : Task) (po : Option Int) :
    (s.running po).2.pretty_host = s.pretty_host := by
  unfold Task.running
  repeat' first
    | rfl
    | split
    | dsimp only

/-- close_stdin leaves the derived display name unchanged. -/
theorem pretty_host_close_stdin (s : Task) :
    s.close_stdin.1.pretty_host = s.pretty_host := by
  unfold Task.close_stdin
  cases s.stdin <;> rfl

/-- close_stdout leaves the derived display name unchanged. -/
theorem pretty_host_close_stdout (s : Task) :
    s.close_stdout.1.pretty_host = s.pretty_host := by
  unfold Task.close_stdout
  repeat' first
    | rfl
    | split
    | dsimp only

/-- close_stderr leaves the derived display name unchanged. -/
theorem pretty_host_close_stderr (s : Task) :
    s.close_stderr.1.pretty_host = s.pretty_host := by
  unfold Task.close_stderr
  repeat' first
    | rfl
    | split
    | dsimp only

/-- print_annotated_lines leaves the derived display name unchanged. -/
theorem pretty_host_print (s : Task) (b : Bytes) (a : String) (fo : Option Nat)
    (ff : Bool) : (s.print_annotated_lines b a fo ff).1.pretty_host = s.pretty_host := by
  unfold Task.print_annotated_lines
  repeat' first
    | rfl
    | split
    | dsimp only

/-- handle_stdin leaves the derived display name unchanged. -/
theorem pretty_host_handle_stdin (s : Task) (fd : Nat) (wr : Except Nat Nat) :
    (s.handle_stdin fd wr).1.pretty_host = s.pretty_host := by
  unfold Task.handle_stdin Task.close_stdin Task.log_exception
  repeat' first
    | rfl
    | split
    | dsimp only

/-- handle_stdout leaves the derived display name unchanged. -/
theorem pretty_host_handle_stdout (s : Task) (fd : Nat) (rr : Except Nat Bytes) :
    (s.handle_stdout fd rr).1.pretty_host = s.pretty_host := by
  unfold Task.handle_stdout Task.print_annotated_lines Task.close_stdout Task.log_exception
  repeat' first
    | rfl
    | split
    | dsimp only

/-- handle_stderr leaves the derived display name unchanged. -/
theorem pretty_host_handle_stderr (s : Task) (fd : Nat) (rr : Except Nat Bytes) :
    (s.handle_stderr fd rr).1.pretty_host = s.pretty_host := by
  unfold Task.handle_stderr Task.print_annotated_lines Task.close_stderr Task.close_stdin
    Task.log_exception
  repeat' first
    | rfl
    | split
    | dsimp only

/-- C10: the display name derived at construction equals the host, prefixed
by the user and an at-sign exactly when the given user differs from the
default user of the options, and suffixed by a colon and the port exactly
when the port is non-empty; and no embedded operation ever modifies it. -/
theorem C10_pretty_host :
    (∀ host port user : String, ∀ opts : Opts, ∀ stdinBuf : Bytes,
      (Task.init host port user opts stdinBuf).pretty_host =
        (if user ≠ opts.user then user ++ "@" ++ host else host) ++
          (if port ≠ "" then ":" ++ port else "")) ∧
    (∀ s : Task, ∀ fd : Nat, ∀ wr : Except Nat Nat, ∀ rr : Except Nat Bytes,
      ∀ po : Option Int, ∀ b : Bytes, ∀ a : String, ∀ fo : Option Nat, ∀ ff : Bool,
      ∀ e : Nat,
      s.kill_.1.pretty_host = s.pretty_host ∧
      s.timedout.1.pretty_host = s.pretty_host ∧
      s.interrupted.1.pretty_host = s.pretty_host ∧
      s.cancel.pretty_host = s.pretty_host ∧
      (s.running po).2.pretty_host = s.pretty_host ∧
      s.close_stdin.1.pretty_host = s.pretty_host ∧
      s.close_stdout.1.pretty_host = s.pretty_host ∧
      s.close_stderr.1.pretty_host = s.pretty_host ∧
      (s.log_exception e).pretty_host = s.pretty_host ∧
      (s.print_annotated_lines b a fo ff).1.pretty_host = s.pretty_host ∧
      (s.handle_stdin fd wr).1.pretty_host = s.pretty_host ∧
      (s.handle_stdout fd rr).1.pretty_host = s.pretty_host ∧
      (s.handle_stderr fd rr).1.pretty_host = s.pretty_host) := by
  constructor
  · intro host port user opts stdinBuf
    by_cases hu : user ≠ opts.user <;> by_cases hp : port ≠ "" <;>
      simp [Task.init, hu, hp, String.append_assoc]
  · intro s fd wr rr po b a fo ff e
    exact ⟨pretty_host_kill s, pretty_host_timedout s, pretty_host_interrupted s,
      rfl, pretty_host_running s po, pretty_host_close_stdin s,
      pretty_host_close_stdout s, pretty_host_close_stderr s, rfl,
      pretty_host_print s b a fo ff, pretty_host_handle_stdin s fd wr,
      pretty_host_handle_stdout s fd rr, pretty_host_handle_stderr s fd rr⟩

/-!
## Line splitting theory

Lemmas about segs, trailingFrag and terminatedPrefix used by the framer
claims C4, C5 and C6.
-/

/-- consHead never produces an empty list. -/
theorem consHead_ne_nil (b : Nat) (l : List (Bytes × Bytes)) : consHead b l ≠ [] := by
  cases l <;> simp [consHead]

/-- segs of an empty string is empty. -/
theorem segs_nil : segs [] = [] := rfl

/-- segs is empty exactly on the empty string. -/
theorem segs_eq_nil_iff (s : Bytes) : segs s = [] ↔ s = [] := by
  constructor
  · intro h
    match s with
    | [] => rfl
    | [b] =>
      exfalso
      by_cases h13 : b = 13 <;> by_cases h10 : b = 10 <;> simp [segs, h13, h10] at h
    | b :: b2 :: rest =>
      exfalso
      by_cases h13 : b = 13
      · by_cases h210 : b2 = 10 <;> simp [segs, h13, h210] at h
      · by_cases h10 : b = 10
        · simp [segs, h13, h10] at h
        · rw [show segs (b :: b2 :: rest) = consHead b (segs (b2 :: rest)) by
            simp [segs, h13, h10]] at h
          exact consHead_ne_nil _ _ h
  · intro h
    subst h
    rfl

/-- segs equation: a leading LF yields an empty content with terminator LF. -/
theorem segs_cons_lf (xs : Bytes) : segs (10 :: xs) = ([], [10]) :: segs xs := by
  cases xs <;> simp [segs]

/-- segs equation: a leading CR LF pair is one terminator. -/
theorem segs_cons_crlf (xs : Bytes) : segs (13 :: 10 :: xs) = ([], [13, 10]) :: segs xs := by
  simp [segs]

/-- segs equation: a leading CR not followed by LF is a lone terminator. -/
theorem segs_cons_cr (xs : Bytes) (h : xs.head? ≠ some 10) :
    segs (13 :: xs) = ([], [13]) :: segs xs := by
  cases xs with
  | nil => simp [segs]
  | cons b2 rest =>
    have hb2 : b2 ≠ 10 := by simpa using h
    simp [segs, hb2]

/-- segs equation: a non-terminator byte joins the first segment. -/
theorem segs_cons_other (b : Nat) (xs : Bytes) (h13 : b ≠ 13) (h10 : b ≠ 10) :
    segs (b :: xs) = consHead b (segs xs) := by
  cases xs <;> simp [segs, consHead, h13, h10]

/-- Prepending the empty fragment changes nothing. -/
theorem consFrag_nil (l : List (Bytes × Bytes)) : consFrag [] l = l := by
  cases l with
  | nil => rfl
  | cons p more => cases p; simp [consFrag]

/-- consHead is consFrag of a one-byte fragment, iterated. -/
theorem consHead_consFrag (b : Nat) (r : Bytes) (l : List (Bytes × Bytes)) :
    consHead b (consFrag r l) = consFrag (b :: r) l := by
  cases l with
  | nil =>
    by_cases hr : r = [] <;> simp [consFrag, consHead, hr]
  | cons p more => cases p; simp [consFrag, consHead]

/-- Prepending a terminator-free byte string merges it into the first
segment of the split. -/
theorem segs_append_noterm (r B : Bytes) (hall : ∀ x ∈ r, isTermByte x = false) :
    segs (r ++ B) = consFrag r (segs B) := by
  induction r with
  | nil => simp [consFrag_nil]
  | cons b r0 ih =>
    have hb : isTermByte b = false := hall b (by simp)
    have h13 : b ≠ 13 := by
      intro h; subst h; simp [isTermByte] at hb
    have h10 : b ≠ 10 := by
      intro h; subst h; simp [isTermByte] at hb
    have hr0 : ∀ x ∈ r0, isTermByte x = false := fun x hx => hall x (by simp [hx])
    calc segs (b :: (r0 ++ B)) = consHead b (segs (r0 ++ B)) :=
          segs_cons_other b (r0 ++ B) h13 h10
      _ = consHead b (consFrag r0 (segs B)) := by rw [ih hr0]
      _ = consFrag (b :: r0) (segs B) := consHead_consFrag b r0 (segs B)

/-- A non-empty terminator-free byte string is one unterminated segment. -/
theorem segs_noterm (r : Bytes) (hr : r ≠ []) (hall : ∀ x ∈ r, isTermByte x = false) :
    segs r = [(r, [])] := by
  have h := segs_append_noterm r [] hall
  rw [List.append_nil] at h
  rw [h, segs_nil]
  simp [consFrag, hr]

/-- consHead distributes over append when the first part is non-empty. -/
theorem consHead_append (b : Nat) (l l2 : List (Bytes × Bytes)) (hl : l ≠ []) :
    consHead b (l ++ l2) = consHead b l ++ l2 := by
  cases l with
  | nil => exact absurd rfl hl
  | cons p more => cases p; simp [consHead]

/-- Splitting distributes over append when the first part ends with a
terminator and no CR LF pair straddles the boundary. -/
theorem segs_append_term (A B : Bytes) :
    A.getLast? = some 10 ∨ (A.getLast? = some 13 ∧ B.head? ≠ some 10) →
    segs (A ++ B) = segs A ++ segs B := by
  induction A using segs.induct with
  | case1 =>
    intro h
    simp at h
  | case2 =>
    intro h
    rcases h with h | ⟨h2, hB⟩
    · simp at h
    · rw [List.singleton_append, segs_cons_cr B hB]
      simp [segs]
  | case3 hne =>
    intro h
    rw [List.singleton_append, segs_cons_lf]
    simp [segs]
  | case4 b hb13 hb10 =>
    intro h
    rcases h with h | ⟨h2, hB⟩
    · exact absurd (by simpa using h) hb10
    · exact absurd (by simpa using h2) hb13
  | case5 rest ih =>
    intro h
    rcases rest with _ | ⟨c, rs⟩
    · rw [show ([13, 10] : Bytes) ++ B = 13 :: 10 :: B from rfl, segs_cons_crlf]
      simp [segs]
    · have hl : ((13 : Nat) :: 10 :: c :: rs).getLast? = ((c :: rs : Bytes)).getLast? := by
        rw [List.getLast?_cons_cons, List.getLast?_cons_cons]
      rw [hl] at h
      rw [show ((13 : Nat) :: 10 :: c :: rs) ++ B = 13 :: 10 :: ((c :: rs) ++ B) from rfl,
        segs_cons_crlf, segs_cons_crlf, ih h]
      simp
  | case6 b2 rest hb2 ih =>
    intro h
    rw [List.getLast?_cons_cons] at h
    rw [show ((13 : Nat) :: b2 :: rest) ++ B = 13 :: ((b2 :: rest) ++ B) from rfl,
      segs_cons_cr _ (by simp [hb2]), segs_cons_cr _ (by simp [hb2]), ih h]
    simp
  | case7 b2 rest hne ih =>
    intro h
    rw [List.getLast?_cons_cons] at h
    rw [show ((10 : Nat) :: b2 :: rest) ++ B = 10 :: ((b2 :: rest) ++ B) from rfl,
      segs_cons_lf, segs_cons_lf, ih h]
    simp
  | case8 b b2 rest hb13 hb10 ih =>
    intro h
    rw [List.getLast?_cons_cons] at h
    rw [show (b :: b2 :: rest) ++ B = b :: ((b2 :: rest) ++ B) from rfl,
      segs_cons_other _ _ hb13 hb10, segs_cons_other _ _ hb13 hb10, ih h,
      consHead_append b _ (segs B) (by
        intro hc
        simpa using (segs_eq_nil_iff (b2 :: rest)).mp hc)]

/-- Every pair in the split of a string ending with a terminator has a
non-empty terminator. -/
theorem segs_terms_ne_nil (S : Bytes) :
    (S.getLast? = some 10 ∨ S.getLast? = some 13) →
    ∀ p ∈ segs S, p.2 ≠ [] := by
  induction S using segs.induct with
  | case1 =>
    intro h
    simp at h
  | case2 =>
    intro h p hp
    simp [segs] at hp
    subst hp
    simp
  | case3 hne =>
    intro h p hp
    simp [segs] at hp
    subst hp
    simp
  | case4 b hb13 hb10 =>
    intro h
    rcases h with h | h
    · exact absurd (by simpa using h) hb10
    · exact absurd (by simpa using h) hb13
  | case5 rest ih =>
    intro h p hp
    rw [segs_cons_crlf] at hp
    rcases List.mem_cons.mp hp with hp | hp
    · subst hp; simp
    · rcases rest with _ | ⟨c, rs⟩
      · simp [segs_nil] at hp
      · have hl : ((13 : Nat) :: 10 :: c :: rs).getLast? = ((c :: rs : Bytes)).getLast? := by
          rw [List.getLast?_cons_cons, List.getLast?_cons_cons]
        rw [hl] at h
        exact ih h p hp
  | case6 b2 rest hb2 ih =>
    intro h p hp
    rw [List.getLast?_cons_cons] at h
    rw [segs_cons_cr _ (by simp [hb2])] at hp
    rcases List.mem_cons.mp hp with hp | hp
    · subst hp; simp
    · exact ih h p hp
  | case7 b2 rest hne ih =>
    intro h p hp
    rw [List.getLast?_cons_cons] at h
    rw [segs_cons_lf] at hp
    rcases List.mem_cons.mp hp with hp | hp
    · subst hp; simp
    · exact ih h p hp
  | case8 b b2 rest hb13 hb10 ih =>
    intro h p hp
    rw [List.getLast?_cons_cons] at h
    rw [segs_cons_other _ _ hb13 hb10] at hp
    rcases hseg : segs (b2 :: rest) with _ | ⟨⟨c, t⟩, more⟩
    · exact absurd ((segs_eq_nil_iff _).mp hseg) (by simp)
    · rw [hseg] at hp
      simp only [consHead] at hp
      rcases List.mem_cons.mp hp with hp | hp
      · subst hp
        have := ih h (c, t) (by rw [hseg]; simp)
        simpa using this
      · exact ih h p (by rw [hseg]; exact List.mem_cons_of_mem _ hp)

/-- Concatenating every content and terminator of the split reproduces the
original byte string. -/
theorem segs_flatten (s : Bytes) :
    (segs s).flatMap (fun p => p.1 ++ p.2) = s := by
  induction s using segs.induct with
  | case1 => rfl
  | case2 => rfl
  | case3 hne => simp [segs]
  | case4 b hb13 hb10 => simp [segs, hb13, hb10]
  | case5 rest ih =>
    rw [segs_cons_crlf]
    simp [ih]
  | case6 b2 rest hb2 ih =>
    rw [segs_cons_cr _ (by simp [hb2])]
    simp [ih]
  | case7 b2 rest hne ih =>
    rw [segs_cons_lf]
    simp [ih]
  | case8 b b2 rest hb13 hb10 ih =>
    rw [segs_cons_other _ _ hb13 hb10]
    rcases hseg : segs (b2 :: rest) with _ | ⟨⟨c, t⟩, more⟩
    · exact absurd ((segs_eq_nil_iff _).mp hseg) (by simp)
    · rw [hseg] at ih
      simp only [consHead, List.flatMap_cons] at ih ⊢
      simpa using ih

/-- takeWhile over an append whose first part satisfies the predicate. -/
theorem takeWhile_append_all (p : Nat → Bool) (l1 l2 : List Nat)
    (h : ∀ x ∈ l1, p x = true) :
    (l1 ++ l2).takeWhile p = l1 ++ l2.takeWhile p := by
  induction l1 with
  | nil => simp
  | cons a l ih =>
    have ha := h a (by simp)
    simp [List.takeWhile_cons, ha, ih (fun x hx => h x (by simp [hx]))]

/-- takeWhile over an append whose first part has a failing element. -/
theorem takeWhile_append_stop (p : Nat → Bool) (l1 l2 : List Nat)
    (h : ∃ x ∈ l1, p x = false) :
    (l1 ++ l2).takeWhile p = l1.takeWhile p := by
  induction l1 with
  | nil => simp at h
  | cons a l ih =>
    by_cases ha : p a = true
    · have h0 : ∃ x ∈ l, p x = false := by
        rcases h with ⟨x, hx, hpx⟩
        rcases List.mem_cons.mp hx with hx | hx
        · subst hx; rw [hpx] at ha; cases ha
        · exact ⟨x, hx, hpx⟩
      simp [List.takeWhile_cons, ha, ih h0]
    · have ha' : p a = false := by simpa using ha
      simp [List.takeWhile_cons, ha']

/-- dropWhile over an append whose first part satisfies the predicate. -/
theorem dropWhile_append_all (p : Nat → Bool) (l1 l2 : List Nat)
    (h : ∀ x ∈ l1, p x = true) :
    (l1 ++ l2).dropWhile p = l2.dropWhile p := by
  induction l1 with
  | nil => simp
  | cons a l ih =>
    have ha := h a (by simp)
    simp [List.dropWhile_cons, ha, ih (fun x hx => h x (by simp [hx]))]

/-- dropWhile over an append whose first part has a failing element. -/
theorem dropWhile_append_stop (p : Nat → Bool) (l1 l2 : List Nat)
    (h : ∃ x ∈ l1, p x = false) :
    (l1 ++ l2).dropWhile p = l1.dropWhile p ++ l2 := by
  induction l1 with
  | nil => simp at h
  | cons a l ih =>
    by_cases ha : p a = true
    · have h0 : ∃ x ∈ l, p x = false := by
        rcases h with ⟨x, hx, hpx⟩
        rcases List.mem_cons.mp hx with hx | hx
        · subst hx; rw [hpx] at ha; cases ha
        · exact ⟨x, hx, hpx⟩
      simp [List.dropWhile_cons, ha, ih h0]
    · have ha' : p a = false := by simpa using ha
      simp [List.dropWhile_cons, ha']

/-- The head of a dropWhile result fails the predicate. -/
theorem head_dropWhile_false (p : Nat → Bool) (l : List Nat) :
    ∀ x, (l.dropWhile p).head? = some x → p x = false := by
  induction l with
  | nil => intro x h; simp at h
  | cons a l ih =>
    intro x h
    by_cases ha : p a = true
    · rw [List.dropWhile_cons, if_pos ha] at h
      exact ih x h
    · rw [List.dropWhile_cons, if_neg ha] at h
      simp at h
      rw [← h]
      simpa using ha

/-- A byte string is its terminated prefix followed by its trailing
fragment. -/
theorem tp_append_frag (s : Bytes) : terminatedPrefix s ++ trailingFrag s = s := by
  unfold terminatedPrefix trailingFrag
  rw [← List.reverse_append, List.takeWhile_append_dropWhile, List.reverse_reverse]

/-- No byte of the trailing fragment is a terminator. -/
theorem frag_all (s : Bytes) : ∀ x ∈ trailingFrag s, isTermByte x = false := by
  intro x hx
  unfold trailingFrag at hx
  rw [List.mem_reverse] at hx
  have := List.mem_takeWhile_imp hx
  simpa using this

/-- A byte string ending with a terminator has no trailing fragment. -/
theorem frag_eq_nil (s : Bytes) (t : Nat) (h : s.getLast? = some t)
    (ht : isTermByte t = true) : trailingFrag s = [] := by
  unfold trailingFrag
  have hh : s.reverse.head? = some t := by rw [List.head?_reverse, h]
  cases hrev : s.reverse with
  | nil => simp
  | cons a l =>
    rw [hrev] at hh
    simp only [List.head?_cons, Option.some.injEq] at hh
    subst hh
    simp [List.takeWhile_cons, ht]

/-- A byte string ending with a non-terminator has a trailing fragment. -/
theorem frag_ne_nil (s : Bytes) (t : Nat) (h : s.getLast? = some t)
    (ht : isTermByte t = false) : trailingFrag s ≠ [] := by
  unfold trailingFrag
  have hh : s.reverse.head? = some t := by rw [List.head?_reverse, h]
  cases hrev : s.reverse with
  | nil => simp [hrev] at hh
  | cons a l =>
    rw [hrev] at hh
    simp only [List.head?_cons, Option.some.injEq] at hh
    subst hh
    simp [List.takeWhile_cons, ht]

/-- A non-empty terminated prefix ends with a terminator byte. -/
theorem tp_getLast_term (s : Bytes) (h : terminatedPrefix s ≠ []) :
    ∃ t, (terminatedPrefix s).getLast? = some t ∧ isTermByte t = true := by
  unfold terminatedPrefix at h ⊢
  cases hd : s.reverse.dropWhile (fun b => !isTermByte b) with
  | nil => rw [hd] at h; simp at h
  | cons a l =>
    refine ⟨a, ?_, ?_⟩
    · rw [List.getLast?_reverse]
      rfl
    · have := head_dropWhile_false (fun b => !isTermByte b) s.reverse a (by rw [hd]; rfl)
      simpa using this

/-- The terminated prefix has no trailing fragment of its own. -/
theorem frag_tp (s : Bytes) : trailingFrag (terminatedPrefix s) = [] := by
  by_cases h : terminatedPrefix s = []
  · rw [h]; rfl
  · obtain ⟨t, hlast, hterm⟩ := tp_getLast_term s h
    exact frag_eq_nil _ t hlast hterm

/-- Taking the terminated prefix is idempotent. -/
theorem tp_tp (s : Bytes) :
    terminatedPrefix (terminatedPrefix s) = terminatedPrefix s := by
  have h := tp_append_frag (terminatedPrefix s)
  rw [frag_tp] at h
  simpa using h

/-- Appending a terminator-free byte string extends the trailing fragment. -/
theorem frag_append_all (A B : Bytes) (h : ∀ x ∈ B, isTermByte x = false) :
    trailingFrag (A ++ B) = trailingFrag A ++ B := by
  unfold trailingFrag
  rw [List.reverse_append,
    takeWhile_append_all _ _ _ (by
      intro x hx
      rw [List.mem_reverse] at hx
      simp [h x hx]),
    List.reverse_append, List.reverse_reverse]

/-- Appending a byte string containing a terminator resets the trailing
fragment to that of the appended part. -/
theorem frag_append_term (A B : Bytes) (h : ∃ x ∈ B, isTermByte x = true) :
    trailingFrag (A ++ B) = trailingFrag B := by
  unfold trailingFrag
  rcases h with ⟨x, hx, hpx⟩
  rw [List.reverse_append,
    takeWhile_append_stop _ _ _ ⟨x, by rw [List.mem_reverse]; exact hx, by simp [hpx]⟩]

/-- Appending a terminator-free byte string keeps the terminated prefix. -/
theorem tp_append_all (A B : Bytes) (h : ∀ x ∈ B, isTermByte x = false) :
    terminatedPrefix (A ++ B) = terminatedPrefix A := by
  unfold terminatedPrefix
  rw [List.reverse_append,
    dropWhile_append_all _ _ _ (by
      intro x hx
      rw [List.mem_reverse] at hx
      simp [h x hx])]

/-- Appending a byte string containing a terminator extends the terminated
prefix across the whole first part. -/
theorem tp_append_term (A B : Bytes) (h : ∃ x ∈ B, isTermByte x = true) :
    terminatedPrefix (A ++ B) = A ++ terminatedPrefix B := by
  unfold terminatedPrefix
  rcases h with ⟨x, hx, hpx⟩
  rw [List.reverse_append,
    dropWhile_append_stop _ _ _ ⟨x, by rw [List.mem_reverse]; exact hx, by simp [hpx]⟩,
    List.reverse_append, List.reverse_reverse]

/-- Splitting a byte string that does not end with a terminator: the
segments of the terminated prefix followed by the unterminated trailing
fragment. -/
theorem segs_decomp (s : Bytes) (hs : s ≠ []) (h10 : s.getLast? ≠ some 10)
    (h13 : s.getLast? ≠ some 13) :
    segs s = segs (terminatedPrefix s) ++ [(trailingFrag s, [])] := by
  obtain ⟨t, ht⟩ : ∃ t, s.getLast? = some t := by
    cases hl : s.getLast? with
    | none => exact absurd (List.getLast?_eq_none_iff.mp hl) hs
    | some t => exact ⟨t, rfl⟩
  have htf : isTermByte t = false := by
    by_cases hb : isTermByte t = true
    · exfalso
      rcases (by simpa [isTermByte] using hb : t = 10 ∨ t = 13) with h | h <;>
        subst h
      · exact h10 ht
      · exact h13 ht
    · simpa using hb
  have hfrag : trailingFrag s ≠ [] := frag_ne_nil s t ht htf
  have hsplit := tp_append_frag s
  have hsegf : segs (trailingFrag s) = [(trailingFrag s, [])] :=
    segs_noterm _ hfrag (frag_all s)
  by_cases htp : terminatedPrefix s = []
  · rw [htp, List.nil_append] at hsplit
    rw [htp, segs_nil, List.nil_append, ← hsegf, hsplit]
  · obtain ⟨t0, hlast0, hterm0⟩ := tp_getLast_term s htp
    have hB : (trailingFrag s).head? ≠ some 10 := by
      intro hc
      have hmem : (10 : Nat) ∈ trailingFrag s :=
        List.mem_of_mem_head? (by rw [hc]; rfl)
      have := frag_all s 10 hmem
      simp [isTermByte] at this
    have hdisj : (terminatedPrefix s).getLast? = some 10 ∨
        ((terminatedPrefix s).getLast? = some 13 ∧ (trailingFrag s).head? ≠ some 10) := by
      rcases (by simpa [isTermByte] using hterm0 : t0 = 10 ∨ t0 = 13) with h | h
      · exact Or.inl (h ▸ hlast0)
      · exact Or.inr ⟨h ▸ hlast0, hB⟩
    calc segs s = segs (terminatedPrefix s ++ trailingFrag s) := by rw [hsplit]
      _ = segs (terminatedPrefix s) ++ segs (trailingFrag s) :=
          segs_append_term _ _ hdisj
      _ = segs (terminatedPrefix s) ++ [(trailingFrag s, [])] := by rw [hsegf]

/-- The last element of a byte string is a member. -/
theorem mem_of_getLast?_eq (l : List Nat) (t : Nat) (h : l.getLast? = some t) :
    t ∈ l := by
  have hx : t ∈ l.getLast? := by rw [h]; rfl
  obtain ⟨hne, heq⟩ := List.mem_getLast?_eq_getLast hx
  rw [heq]
  exact List.getLast_mem hne

/-- With the unfinished flag cleared, tagging just pairs every line with
false. -/
theorem tagLines_false (l : List Bytes) :
    tagLines false l = l.map (fun c => (c, false)) := by
  induction l with
  | nil => rfl
  | cons a l ih =>
    cases l with
    | nil => rfl
    | cons b m =>
      simp only [tagLines, List.map_cons] at ih ⊢
      rw [ih]

/-- framerStep in the retaining case: descriptor present, unfinished buffer,
buffering on, not forced. -/
theorem framerStep_retain (buf : Bytes) (h1 : buf ≠ [])
    (h2 : buf.getLast? ≠ some 10) :
    framerStep true true buf false =
      (tagLines false (((segs buf).map Prod.fst).dropLast),
        ((segs buf).map Prod.fst).getLastD []) := by
  unfold framerStep
  simp [h1, h2]

/-- framerStep on a finished (or empty) buffer never retains and never
flags. -/
theorem framerStep_noretain (fdp bl : Bool) (buf : Bytes) (force : Bool)
    (h : buf = [] ∨ buf.getLast? = some 10) :
    framerStep fdp bl buf force =
      (tagLines false ((segs buf).map Prod.fst), []) := by
  unfold framerStep
  have hu : decide (buf ≠ [] ∧ buf.getLast? ≠ some 10) = false := by
    rcases h with h | h <;> simp [h]
  simp [hu]

/-- framerStep at forced completion on an unfinished buffer: everything is
emitted and the last line is flagged. -/
theorem framerStep_forced (fdp bl : Bool) (buf : Bytes) (h1 : buf ≠ [])
    (h2 : buf.getLast? ≠ some 10) :
    framerStep fdp bl buf true =
      (tagLines true ((segs buf).map Prod.fst), []) := by
  unfold framerStep
  simp [h1, h2]

/-- The splitlines contents of an unterminated buffer: complete lines, then
the trailing fragment. -/
theorem lines_decomp (buf : Bytes) (hs : buf ≠ []) (h10 : buf.getLast? ≠ some 10)
    (h13 : buf.getLast? ≠ some 13) :
    (segs buf).map Prod.fst =
      ((segs (terminatedPrefix buf)).map Prod.fst) ++ [trailingFrag buf] := by
  rw [segs_decomp buf hs h10 h13]
  simp

/-- C4: on a chunk whose concatenation with the retained fragment does not
end with a line terminator, with line buffering enabled and completion not
forced, print_annotated_lines stores the final incomplete segment (the
maximal terminator-free suffix of the concatenation) as the retained
fragment of the (descriptor, kind) key, changes nothing else in the task,
and emits exactly the earlier complete lines (the lines of the terminated
prefix), rendered in order with the unfinished flag cleared, as one write
followed by one flush. -/
theorem C4_framer_retains (s : Task) (chunk : Bytes) (atype : String) (f : Nat)
    (buf : Bytes) (hbuf : buf = dictGet s.fd_to_buffer (f, atype) ++ chunk)
    (hbl : s.buffer_lines = true) (h1 : buf ≠ [])
    (h10 : buf.getLast? ≠ some 10) (h13 : buf.getLast? ≠ some 13) :
    s.print_annotated_lines chunk atype (some f) false =
      ({ s with fd_to_buffer := dictSet s.fd_to_buffer (f, atype) (trailingFrag buf) },
        if terminatedPrefix buf = [] then []
        else
          [Effect.streamWrite (if atype = "err" then Sink.errS else Sink.outS)
            (List.intercalate [10]
              (((segs (terminatedPrefix buf)).map Prod.fst).map
                (fun l => renderLine s.annotate_lines s.host_b atype (l, false))) ++ [10]),
           Effect.streamFlush (if atype = "err" then Sink.errS else Sink.outS)]) := by
  unfold Task.print_annotated_lines
  dsimp only
  rw [← hbuf, hbl, show (some f).isSome = true from rfl,
    framerStep_retain buf h1 h10, lines_decomp buf h1 h10 h13,
    List.dropLast_concat, List.getLastD_concat, tagLines_false]
  dsimp only
  by_cases htp : terminatedPrefix buf = []
  · rw [htp]
    simp [segs_nil]
  · rw [if_neg (by
      simp only [ne_eq, List.map_eq_nil_iff, segs_eq_nil_iff]
      exact htp), if_neg htp]
    simp only [List.map_map]
    rfl

/-- C4 witness: one chunk holding one complete line and an incomplete tail;
the complete annotated line is emitted and the tail byte is retained. -/
theorem C4_witness :
    task0.print_annotated_lines [97, 10, 98] ("out") (some 5) false =
      ({ task0 with fd_to_buffer := dictSet task0.fd_to_buffer (5, ("out")) [98] },
        [Effect.streamWrite Sink.outS [104, 32, 45, 62, 32, 97, 10],
         Effect.streamFlush Sink.outS]) :=
  (C4_framer_retains task0 [97, 10, 98] ("out") 5 [97, 10, 98] rfl rfl
    (by decide) (by decide) (by decide)).trans rfl

/-- C6 amended: with annotation disabled, line buffering enabled,
completion not forced and the concatenation of the retained fragment and
the chunk not ending in a carriage-return byte, every emitted line is a raw
complete line of that concatenation, unmodified and undecorated. The two
carve-outs are forced by the counterexample: the unterminated-line mark is
still appended to an unterminated final line regardless of the annotation
setting (forced completion or buffering disabled, second conjunct), and a
concatenation ending in a carriage return has that terminator dropped by
retention, merging its last raw line into the next call's first emitted
line. -/
theorem C6_raw_lines (s : Task) (chunk : Bytes) (atype : String) (f : Nat)
    (buf : Bytes) (hbuf : buf = dictGet s.fd_to_buffer (f, atype) ++ chunk)
    (han : s.annotate_lines = false) (hbl : s.buffer_lines = true)
    (h13 : buf.getLast? ≠ some 13) :
    (s.print_annotated_lines chunk atype (some f) false).2 =
      (if terminatedPrefix buf = [] then []
       else
         [Effect.streamWrite (if atype = "err" then Sink.errS else Sink.outS)
           (List.intercalate [10] ((segs (terminatedPrefix buf)).map Prod.fst) ++ [10]),
          Effect.streamFlush (if atype = "err" then Sink.errS else Sink.outS)]) ∧
    (∀ l : Bytes, renderLine false s.host_b atype (l, true) = l ++ UNTERMINATED_LINE_MARK) := by
  constructor
  · unfold Task.print_annotated_lines
    dsimp only
    rw [← hbuf, hbl, show (some f).isSome = true from rfl, han]
    by_cases hb : buf = []
    · rw [hb, framerStep_noretain true true [] false (Or.inl rfl)]
      have htp0 : terminatedPrefix ([] : Bytes) = [] := rfl
      simp [htp0, segs_nil, tagLines]
    · by_cases h10 : buf.getLast? = some 10
      · have htpbuf : terminatedPrefix buf = buf := by
          have h := tp_append_frag buf
          rw [frag_eq_nil buf 10 h10 (by simp [isTermByte])] at h
          simpa using h
        rw [framerStep_noretain true true buf false (Or.inr h10), tagLines_false, htpbuf]
        dsimp only
        rw [if_neg (by simp [segs_eq_nil_iff, hb]), if_neg hb]
        simp only [List.map_map]
        have hmap : List.map (renderLine false s.host_b atype ∘ (fun c => (c, false)) ∘
            Prod.fst) (segs buf) = List.map Prod.fst (segs buf) :=
          List.map_congr_left (fun p hp => by simp [renderLine, Function.comp])
        rw [hmap]
      · rw [framerStep_retain buf hb h10, lines_decomp buf hb h10 h13,
          List.dropLast_concat, List.getLastD_concat, tagLines_false]
        dsimp only
        by_cases htp : terminatedPrefix buf = []
        · rw [htp]
          simp [segs_nil]
        · rw [if_neg (by simp [segs_eq_nil_iff, htp]), if_neg htp]
          simp only [List.map_map]
          have hmap : List.map (renderLine false s.host_b atype ∘ (fun c => (c, false)) ∘
              Prod.fst) (segs (terminatedPrefix buf)) =
              List.map Prod.fst (segs (terminatedPrefix buf)) :=
            List.map_congr_left (fun p hp => by simp [renderLine, Function.comp])
          rw [hmap]
  · intro l
    simp [renderLine]

/-- C6 counterexample: the claim says that with annotation disabled no
decoration of any kind is added and every emitted line equals the
corresponding raw input line. Two failures. First, with annotation disabled
and line buffering also disabled (a real configuration of handle_stdout
with print_out on), an unterminated chunk is emitted with the
unterminated-line mark appended, so the emitted line differs from the raw
input line. Second, even with buffering on and no forced completion, a
chunk ending in a carriage return has that terminator dropped by the
retention step, so the next call emits a line merging the two raw input
lines: the chunk b CR followed by the chunk c LF emits the single line bc,
which equals neither raw input line. -/
theorem C6_counterexample :
    taskRaw.annotate_lines = false ∧
    (taskRaw.print_annotated_lines [97, 98, 99] ("out") (some 5) false).2 =
      [Effect.streamWrite Sink.outS ([97, 98, 99] ++ UNTERMINATED_LINE_MARK ++ [10]),
       Effect.streamFlush Sink.outS] ∧
    ([97, 98, 99] : Bytes) ++ UNTERMINATED_LINE_MARK ≠ [97, 98, 99] ∧
    taskNoAnn.annotate_lines = false ∧
    taskNoAnn.buffer_lines = true ∧
    (taskNoAnn.print_annotated_lines [98, 13] ("out") (some 5) false).2 = [] ∧
    ((taskNoAnn.print_annotated_lines [98, 13] ("out") (some 5) false).1.print_annotated_lines
        [99, 10] ("out") (some 5) false).2 =
      [Effect.streamWrite Sink.outS [98, 99, 10], Effect.streamFlush Sink.outS] ∧
    ([98, 99] : Bytes) ≠ [98] ∧ ([98, 99] : Bytes) ≠ [99] := by
  decide

/-- C6 witness: the amended theorem applied to a task with annotation off
and buffering on, on a chunk holding one complete line; the line comes out
raw. -/
theorem C6_witness :
    (taskNoAnn.print_annotated_lines [97, 10, 98] ("out") (some 5) false).2 =
      [Effect.streamWrite Sink.outS [97, 10], Effect.streamFlush Sink.outS] :=
  ((C6_raw_lines taskNoAnn [97, 10, 98] ("out") 5 [97, 10, 98] rfl rfl rfl
    (by decide)).1).trans rfl

/-- One unforced buffered framer call, viewed against the whole stream: if
the retained fragment is the trailing fragment of the bytes S seen so far
(and neither S nor the chunk ends with CR), the new retained fragment is the
trailing fragment of S followed by the chunk, and the emitted tagged lines
extend the already-emitted complete lines of S to those of S followed by the
chunk. -/
theorem framerStep_shift (S c : Bytes) (hS : S.getLast? ≠ some 13)
    (hc : c.getLast? ≠ some 13) :
    (framerStep true true (trailingFrag S ++ c) false).2 = trailingFrag (S ++ c) ∧
    (segs (terminatedPrefix S)).map (fun p => (p.1, p.2.isEmpty)) ++
        (framerStep true true (trailingFrag S ++ c) false).1 =
      (segs (terminatedPrefix (S ++ c))).map (fun p => (p.1, p.2.isEmpty)) := by
  have hSc : S ++ c = terminatedPrefix S ++ (trailingFrag S ++ c) := by
    rw [← List.append_assoc, tp_append_frag]
  by_cases hterm : ∃ x ∈ trailingFrag S ++ c, isTermByte x = true
  · have hfragSc : trailingFrag (S ++ c) = trailingFrag (trailingFrag S ++ c) := by
      rw [hSc]
      exact frag_append_term _ _ hterm
    have htpSc : terminatedPrefix (S ++ c) =
        terminatedPrefix S ++ terminatedPrefix (trailingFrag S ++ c) := by
      rw [hSc]
      exact tp_append_term _ _ hterm
    have htpbufne : terminatedPrefix (trailingFrag S ++ c) ≠ [] := by
      intro h0
      have hbf := tp_append_frag (trailingFrag S ++ c)
      rw [h0, List.nil_append] at hbf
      rcases hterm with ⟨x, hx, hpx⟩
      have := frag_all (trailingFrag S ++ c) x (by rw [hbf]; exact hx)
      rw [hpx] at this
      cases this
    have hjoin : segs (terminatedPrefix S ++ terminatedPrefix (trailingFrag S ++ c)) =
        segs (terminatedPrefix S) ++ segs (terminatedPrefix (trailingFrag S ++ c)) := by
      by_cases htpS : terminatedPrefix S = []
      · rw [htpS, List.nil_append, segs_nil, List.nil_append]
      · obtain ⟨t0, hlast0, hterm0⟩ := tp_getLast_term S htpS
        apply segs_append_term
        rcases (show t0 = 10 ∨ t0 = 13 by simpa [isTermByte] using hterm0) with h | h
        · exact Or.inl (h ▸ hlast0)
        · refine Or.inr ⟨h ▸ hlast0, ?_⟩
          have hhead : (terminatedPrefix (trailingFrag S ++ c)).head? =
              (trailingFrag S ++ c).head? := by
            conv_rhs => rw [← tp_append_frag (trailingFrag S ++ c)]
            rw [List.head?_append_of_ne_nil _ htpbufne]
          rw [hhead]
          have hfragS_ne : trailingFrag S ≠ [] := by
            intro h0
            have hS_eq : terminatedPrefix S = S := by
              have hx := tp_append_frag S
              rw [h0] at hx
              simpa using hx
            rw [hS_eq] at hlast0
            exact hS (by rw [hlast0, h])
          rw [List.head?_append_of_ne_nil _ hfragS_ne]
          intro hcon
          have hmem : (10 : Nat) ∈ trailingFrag S :=
            List.mem_of_mem_head? (by rw [hcon]; rfl)
          have := frag_all S 10 hmem
          simp [isTermByte] at this
    by_cases h10 : (trailingFrag S ++ c).getLast? = some 10
    · have hfragbuf : trailingFrag (trailingFrag S ++ c) = [] :=
        frag_eq_nil _ 10 h10 (by simp [isTermByte])
      have htpbuf_eq : terminatedPrefix (trailingFrag S ++ c) = trailingFrag S ++ c := by
        have hx := tp_append_frag (trailingFrag S ++ c)
        rw [hfragbuf] at hx
        simpa using hx
      rw [framerStep_noretain true true _ false (Or.inr h10), tagLines_false]
      constructor
      · rw [hfragSc, hfragbuf]
      · rw [htpSc, hjoin, htpbuf_eq, List.map_append]
        congr 1
        rw [List.map_map]
        apply List.map_congr_left
        intro p hp
        have hne := segs_terms_ne_nil (trailingFrag S ++ c) (Or.inl h10) p hp
        simp [Function.comp, hne]
    · have hbufne : trailingFrag S ++ c ≠ [] := by
        intro h0
        rcases hterm with ⟨x, hx, _⟩
        rw [h0] at hx
        cases hx
      have h13buf : (trailingFrag S ++ c).getLast? ≠ some 13 := by
        by_cases hcn : c = []
        · subst hcn
          rw [List.append_nil]
          intro hcon
          have hmem := mem_of_getLast?_eq _ _ hcon
          have := frag_all S 13 hmem
          simp [isTermByte] at this
        · rw [List.getLast?_append_of_ne_nil _ hcn]
          exact hc
      rw [framerStep_retain _ hbufne h10, lines_decomp _ hbufne h10 h13buf,
        List.dropLast_concat, List.getLastD_concat, tagLines_false]
      constructor
      · rw [hfragSc]
      · rw [htpSc, hjoin, List.map_append]
        congr 1
        rw [List.map_map]
        apply List.map_congr_left
        intro p hp
        obtain ⟨t0, hl0, ht0⟩ := tp_getLast_term (trailingFrag S ++ c) htpbufne
        have hne := segs_terms_ne_nil (terminatedPrefix (trailingFrag S ++ c))
          (by
            rcases (show t0 = 10 ∨ t0 = 13 by simpa [isTermByte] using ht0) with h | h
            · exact Or.inl (h ▸ hl0)
            · exact Or.inr (h ▸ hl0)) p hp
        simp [Function.comp, hne]
  · push_neg at hterm
    have hall : ∀ x ∈ trailingFrag S ++ c, isTermByte x = false := by
      intro x hx
      simpa using hterm x hx
    have hfragSc : trailingFrag (S ++ c) = trailingFrag S ++ c := by
      rw [hSc, frag_append_all _ _ hall, frag_tp, List.nil_append]
    have htpSc : terminatedPrefix (S ++ c) = terminatedPrefix S := by
      rw [hSc, tp_append_all _ _ hall, tp_tp]
    by_cases hbe : trailingFrag S ++ c = []
    · rw [hbe, framerStep_noretain true true [] false (Or.inl rfl)]
      constructor
      · rw [hfragSc, hbe]
      · rw [htpSc]
        simp [segs_nil, tagLines]
    · have h10 : (trailingFrag S ++ c).getLast? ≠ some 10 := by
        intro hcon
        have hmem := mem_of_getLast?_eq _ _ hcon
        have := hall 10 hmem
        simp [isTermByte] at this
      rw [framerStep_retain _ hbe h10,
        segs_noterm _ hbe hall]
      constructor
      · rw [hfragSc]
        simp
      · rw [htpSc]
        simp [tagLines]

/-- The framer driver against the whole stream: starting from the trailing
fragment of the bytes S already seen, feeding the remaining chunks and the
final forced flush emits exactly the lines of the whole stream that the
lines of S did not yet cover, each flagged as unterminated exactly when its
terminator in the stream is empty. -/
theorem runFramerGo_spec (chunks : List Bytes) :
    ∀ S : Bytes, S.getLast? ≠ some 13 →
    (∀ c ∈ chunks, c.getLast? ≠ some 13) →
    (segs (terminatedPrefix S)).map (fun p => (p.1, p.2.isEmpty)) ++
      runFramerGo chunks (trailingFrag S) =
    (segs (S ++ chunks.flatten)).map (fun p => (p.1, p.2.isEmpty)) := by
  induction chunks with
  | nil =>
    intro S hS _
    rw [show (([] : List Bytes)).flatten = [] from rfl, List.append_nil]
    show _ ++ (framerStep true true (trailingFrag S) true).1 = _
    by_cases hfr : trailingFrag S = []
    · rw [hfr, framerStep_noretain true true [] true (Or.inl rfl)]
      have htpS : terminatedPrefix S = S := by
        have h := tp_append_frag S
        rw [hfr] at h
        simpa using h
      rw [htpS]
      simp [segs_nil, tagLines]
    · have h10 : (trailingFrag S).getLast? ≠ some 10 := by
        intro hcon
        have := frag_all S 10 (mem_of_getLast?_eq _ _ hcon)
        simp [isTermByte] at this
      rw [framerStep_forced true true _ hfr h10, segs_noterm _ hfr (frag_all S)]
      have hs_ne : S ≠ [] := by
        intro h0
        rw [h0] at hfr
        exact hfr rfl
      have h10S : S.getLast? ≠ some 10 := by
        intro hcon
        exact absurd (frag_eq_nil S 10 hcon (by simp [isTermByte])) hfr
      rw [segs_decomp S hs_ne h10S hS, List.map_append]
      simp [tagLines]
  | cons c rest ih =>
    intro S hS hall
    have hc : c.getLast? ≠ some 13 := hall c (by simp)
    have hrest : ∀ c0 ∈ rest, c0.getLast? ≠ some 13 := fun c0 h => hall c0 (by simp [h])
    have hS2 : (S ++ c).getLast? ≠ some 13 := by
      by_cases hcn : c = []
      · subst hcn
        rw [List.append_nil]
        exact hS
      · rw [List.getLast?_append_of_ne_nil _ hcn]
        exact hc
    obtain ⟨hstep2, hstep1⟩ := framerStep_shift S c hS hc
    show _ ++ ((framerStep true true (trailingFrag S ++ c) false).1 ++
      runFramerGo rest (framerStep true true (trailingFrag S ++ c) false).2) = _
    rw [hstep2, ← List.append_assoc, hstep1, ih (S ++ c) hS2 hrest,
      List.flatten_cons, List.append_assoc]

/-- Pairing the tagged lines with their original segments and flattening
content and terminator rebuilds the stream. -/
theorem zip_map_flat (l : List (Bytes × Bytes)) :
    ((l.map (fun p => (p.1, p.2.isEmpty))).zip l).flatMap (fun q => q.1.1 ++ q.2.2) =
      l.flatMap (fun p => p.1 ++ p.2) := by
  induction l with
  | nil => rfl
  | cons p more ih =>
    simp only [List.map_cons, List.zip_cons_cons, List.flatMap_cons, ih]

/-- C5 amended: feeding a sequence of chunks for one (descriptor, kind)
pair with line buffering on, the last call being the forced end-of-stream
flush, emits exactly the universal-newline lines of the concatenated
stream, in order, flagged as unterminated exactly on the trailing fragment
without terminator; rejoining each emitted content with its original
terminator rebuilds the original stream byte for byte. This holds provided
no chunk ends with a carriage-return byte: the retention step stores
lines[-1], which drops a terminating CR at a chunk boundary (see the
counterexample). -/
theorem C5_roundtrip (chunks : List Bytes)
    (h : ∀ c ∈ chunks, c.getLast? ≠ some 13) :
    runFramer chunks =
      (segs chunks.flatten).map (fun p => (p.1, p.2.isEmpty)) ∧
    ((runFramer chunks).zip (segs chunks.flatten)).flatMap
        (fun q => q.1.1 ++ q.2.2) = chunks.flatten := by
  have hmain := runFramerGo_spec chunks [] (by simp) h
  have h1 : runFramer chunks = (segs chunks.flatten).map (fun p => (p.1, p.2.isEmpty)) := by
    unfold runFramer
    simpa [segs_nil] using hmain
  refine ⟨h1, ?_⟩
  rw [h1, zip_map_flat, segs_flatten]

/-- C5 counterexample: with the chunk sequence CR-terminated then
LF-terminated, the framer retains the fragment without its CR, merges the
two original lines into one and cannot rebuild the stream: the original
claim fails without the no-trailing-CR proviso. -/
theorem C5_counterexample :
    (runFramer [[97, 13], [98, 10]]).map Prod.fst = [[97, 98]] ∧
    (segs (List.flatten [[97, 13], [98, 10]])).map Prod.fst = [[97], [98]] ∧
    ((runFramer [[97, 13], [98, 10]]).zip
        (segs (List.flatten [[97, 13], [98, 10]]))).flatMap
        (fun q => q.1.1 ++ q.2.2) ≠ List.flatten [[97, 13], [98, 10]] := by
  decide

/-- C5 witness: a complete LF line followed by an unterminated fragment;
emitted lines match the stream lines with the trailing fragment flagged. -/
theorem C5_witness :
    (∀ c ∈ ([[97, 10], [98]] : List Bytes), c.getLast? ≠ some 13) ∧
    runFramer [[97, 10], [98]] =
      (segs (List.flatten [[97, 10], [98]])).map (fun p => (p.1, p.2.isEmpty)) :=
  ⟨by decide, (C5_roundtrip [[97, 10], [98]] (by decide)).1⟩

end PsshTask
